import Mathlib

/-!
Verification of `python/sglang/srt/metrics/collector.py` (Prometheus metrics
collection for SGLang).

Embedding conventions:
* Python floats are modelled as exact rationals (`ℚ`); Python ints as `ℤ`
  (amounts that may be negative) or `ℕ` (token counts, counter cells).
* A prometheus_client (v0.21.1, the version pinned by the reference comment in
  `observe_inter_token_latency`) `Histogram` stores `_upper_bounds`, the
  ascending list of finite bucket bounds with `+inf` appended at construction,
  and one counter per bound.  We keep the finite bounds in `bounds`, their
  counters in `buckets`, and the counter of the trailing `+inf` bucket in
  `bucketInf`; the exported `_count` sample is the sum of all bucket counters,
  including the `+inf` one.
* A raised Python exception is modelled with `Except`: `.error s` means the
  exception escaped the call and `s` is the (possibly partially mutated)
  state left behind at that moment.
-/

namespace SGLang

/-- State of one labelled child of a prometheus_client `Histogram`
(the collectors below only ever touch the single child addressed by their
fixed construction-time label tuple, so one child state per histogram
suffices).  `bounds` are the finite upper bounds, `buckets` their counters,
`bucketInf` the counter of the implicit trailing `+inf` bucket, `sum` the
running sum `_sum`. -/
structure Histogram where
  bounds : List ℚ
  buckets : List ℕ
  bucketInf : ℕ
  sum : ℚ
deriving DecidableEq

/-- A freshly constructed histogram child: all bucket counters and the sum
are zero. -/
def Histogram.init (bounds : List ℚ) : Histogram :=
  ⟨bounds, bounds.map fun _ => 0, 0, 0⟩

/-- The linear scan `for i, bound in enumerate(his.upper_bounds)` with
`if v <= bound: ...; break`, restricted to the finite bounds: the index of
the first bound that is at least `v`, `none` when `v` exceeds them all (in
which case the scan in the source terminates at the trailing `+inf` bound). -/
def findBound (v : ℚ) : List ℚ → Option ℕ
  | [] => none
  | b :: bs => if v ≤ b then some 0 else (findBound v bs).map (· + 1)

/-- Add `k` to the entry of `l` at index `i` (a `_buckets[i].inc(k)`);
out-of-range indices leave the list unchanged. -/
def incAt : List ℕ → ℕ → ℕ → List ℕ
  | [], _, _ => []
  | c :: cs, 0, k => (c + k) :: cs
  | c :: cs, i + 1, k => c :: incAt cs i k

/-- prometheus_client `Histogram.observe(v)` on a labelled child: add `v` to
`_sum`, then increment by 1 the first bucket whose bound is at least `v`,
falling through to the `+inf` bucket when every finite bound is below `v`.
Used by `_log_histogram` and the single-sample `observe_*` collector
methods. -/
def Histogram.observe (h : Histogram) (v : ℚ) : Histogram :=
  match findBound v h.bounds with
  | some i => { h with sum := h.sum + v, buckets := incAt h.buckets i 1 }
  | none => { h with sum := h.sum + v, bucketInf := h.bucketInf + 1 }

/-- The `_count` sample exported for a histogram child: prometheus_client
derives it as the sum of every bucket counter, the trailing `+inf` one
included. -/
def Histogram.count (h : Histogram) : ℕ :=
  h.buckets.sum + h.bucketInf

/-- Source `TokenizerMetricsCollector.observe_inter_token_latency`, at the level of
the labelled histogram child `his` it mutates:

    adjusted_interval = internval / num_new_tokens
    his.sum.inc(internval)
    for i, bound in enumerate(his.upper_bounds):
        if adjusted_interval <= bound:
            his.buckets[i].inc(num_new_tokens)
            break

With `num_new_tokens = 0` the first line raises `ZeroDivisionError` before
any state is mutated (`.error h`).  Otherwise the raw `internval` is added to
the running sum once and the scan over the bounds (the trailing `+inf`
included) adds `num_new_tokens` to the first matching bucket. -/
def Histogram.observe_inter_token_latency (h : Histogram) (internval : ℚ)
    (num_new_tokens : ℕ) : Except Histogram Histogram :=
  if num_new_tokens = 0 then .error h
  else
    let adjusted_interval := internval / (num_new_tokens : ℚ)
    let h1 : Histogram := { h with sum := h.sum + internval }
    .ok (match findBound adjusted_interval h1.bounds with
      | some i => { h1 with buckets := incAt h1.buckets i num_new_tokens }
      | none => { h1 with bucketInf := h1.bucketInf + num_new_tokens })

/-- One observation event against a histogram: either a generic single-sample
`observe` (via `_log_histogram` or the dedicated `observe_*` methods), or a
batched `observe_inter_token_latency` call. -/
inductive MetricOp where
  | single (v : ℚ)
  | batch (internval : ℚ) (num_new_tokens : ℕ)
deriving DecidableEq

/-- Run a sequence of observation events against a histogram child; a raised
exception aborts the run and surfaces the state at that moment. -/
def runOps (h : Histogram) : List MetricOp → Except Histogram Histogram
  | [] => .ok h
  | (MetricOp.single v) :: ops => runOps (h.observe v) ops
  | (MetricOp.batch iv n) :: ops =>
    match h.observe_inter_token_latency iv n with
    | .ok h1 => runOps h1 ops
    | .error h1 => .error h1

/-- Number of raw observations a sequence of events represents: a batched
call stands for `num_new_tokens` samples. -/
def opsCount : List MetricOp → ℕ
  | [] => 0
  | (MetricOp.single _) :: ops => 1 + opsCount ops
  | (MetricOp.batch _ n) :: ops => n + opsCount ops

/-- Arithmetic sum of the raw values a sequence of events feeds into the
running sum: the full `internval` for a batched call. -/
def opsSum : List MetricOp → ℚ
  | [] => 0
  | (MetricOp.single v) :: ops => v + opsSum ops
  | (MetricOp.batch iv _) :: ops => iv + opsSum ops

/-- prometheus_client `Counter.inc(amount)` on a labelled child: a negative
amount raises `ValueError`, otherwise the cell accumulates. -/
def counterInc (c : ℕ) (amount : ℤ) : Option ℕ :=
  if amount < 0 then none else some (c + amount.toNat)

/-- Source `TokenizerMetricsCollector`: the four counters and six histograms it owns,
each already restricted to the child addressed by the collector's fixed
construction-time label tuple. -/
structure TokenizerMetricsCollector where
  prompt_tokens_total : ℕ
  generation_tokens_total : ℕ
  cached_tokens_total : ℕ
  num_requests_total : ℕ
  histogram_time_to_first_token : Histogram
  histogram_time_per_output_token : Histogram
  histogram_inter_token_latency_seconds : Histogram
  histogram_e2e_request_latency : Histogram
  histogram_tokenization_latency : Histogram
  histogram_detokenization_latency : Histogram
deriving DecidableEq

/-- Source `TokenizerMetricsCollector.__init__`: zeroed counters, and each histogram
constructed with the bucket ladder written in the source. -/
def TokenizerMetricsCollector.init : TokenizerMetricsCollector where
  prompt_tokens_total := 0
  generation_tokens_total := 0
  cached_tokens_total := 0
  num_requests_total := 0
  histogram_time_to_first_token := Histogram.init
    [0.1, 0.3, 0.5, 0.7, 0.9, 1, 2, 4, 6, 8, 10, 20, 40, 60, 80, 120, 160]
  histogram_time_per_output_token := Histogram.init
    [0.002, 0.005, 0.010, 0.020, 0.030, 0.040, 0.050, 0.060, 0.070, 0.080,
     0.090, 0.100, 0.150, 0.200, 0.300, 0.400, 0.600, 0.800, 1.000, 2.000]
  histogram_inter_token_latency_seconds := Histogram.init
    [0.002, 0.004, 0.006, 0.008, 0.010, 0.015, 0.020, 0.025, 0.030, 0.035,
     0.040, 0.050, 0.075, 0.100, 0.150, 0.200, 0.300, 0.400, 0.500, 0.750,
     1.000, 2.000]
  histogram_e2e_request_latency := Histogram.init
    [0.1, 0.2, 0.4, 0.8, 1, 2, 5, 10, 20, 40, 60, 80, 100, 150, 200, 250,
     300, 350, 500, 1000]
  histogram_tokenization_latency := Histogram.init
    [0.001, 0.002, 0.005, 0.010, 0.020, 0.030, 0.040, 0.050, 0.075, 0.100,
     0.150, 0.200, 0.300, 0.400, 0.500, 1.000]
  histogram_detokenization_latency := Histogram.init
    [0.001, 0.002, 0.005, 0.010, 0.020, 0.030, 0.040, 0.050, 0.075, 0.100,
     0.150, 0.200, 0.300, 0.400, 0.500, 1.000]

/-- The Counter primitives owned by `TokenizerMetricsCollector`, in source
order. -/
def TokenizerMetricsCollector.counters (c : TokenizerMetricsCollector) :
    List ℕ :=
  [c.prompt_tokens_total, c.generation_tokens_total, c.cached_tokens_total,
   c.num_requests_total]

/-- The Histogram primitives owned by `TokenizerMetricsCollector`, in source
order. -/
def TokenizerMetricsCollector.histograms (c : TokenizerMetricsCollector) :
    List Histogram :=
  [c.histogram_time_to_first_token, c.histogram_time_per_output_token,
   c.histogram_inter_token_latency_seconds, c.histogram_e2e_request_latency,
   c.histogram_tokenization_latency, c.histogram_detokenization_latency]

/-- Source `TokenizerMetricsCollector.observe_one_finished_request`: the four
counter increments, the end-to-end latency observation, and — only when
`generation_tokens >= 1` — the derived time-per-output-token observation, in
source order.  A `ValueError` raised by a negative counter increment escapes
the call; the mutations already performed persist (`.error` carries them). -/
def observe_one_finished_request (c : TokenizerMetricsCollector)
    (prompt_tokens generation_tokens cached_tokens : ℤ) (e2e_latency : ℚ) :
    Except TokenizerMetricsCollector TokenizerMetricsCollector :=
  match counterInc c.prompt_tokens_total prompt_tokens with
  | none => .error c
  | some p =>
    let c := { c with prompt_tokens_total := p }
    match counterInc c.generation_tokens_total generation_tokens with
    | none => .error c
    | some g =>
      let c := { c with generation_tokens_total := g }
      match counterInc c.cached_tokens_total cached_tokens with
      | none => .error c
      | some k =>
        let c := { c with cached_tokens_total := k }
        let c := { c with num_requests_total := c.num_requests_total + 1 }
        let c := { c with histogram_e2e_request_latency :=
          c.histogram_e2e_request_latency.observe e2e_latency }
        if 1 ≤ generation_tokens then
          let tpot := c.histogram_time_per_output_token.observe
            (e2e_latency / (generation_tokens : ℚ))
          .ok { c with histogram_time_per_output_token := tpot }
        else .ok c

/-- Source `TokenizerMetricsCollector.observe_inter_token_latency`, routing the
batched observation to the inter-token-latency histogram child. -/
def TokenizerMetricsCollector.observe_inter_token_latency
    (c : TokenizerMetricsCollector) (internval : ℚ) (num_new_tokens : ℕ) :
    Except TokenizerMetricsCollector TokenizerMetricsCollector :=
  match c.histogram_inter_token_latency_seconds.observe_inter_token_latency
      internval num_new_tokens with
  | .ok h => .ok { c with histogram_inter_token_latency_seconds := h }
  | .error h => .error { c with histogram_inter_token_latency_seconds := h }

/-- Source `SchedulerStats`: the immutable snapshot record, with the source's
defaults. -/
structure SchedulerStats where
  num_running_reqs : ℤ := 0
  num_used_tokens : ℤ := 0
  token_usage : ℚ := 0
  gen_throughput : ℚ := 0
  num_queue_reqs : ℤ := 0
  cache_hit_rate : ℚ := 0
  spec_accept_length : ℚ := 0
deriving DecidableEq

/-- Source `SchedulerMetricsCollector`: the seven gauges (each the single child cell
addressed by the collector's fixed label tuple — `_log_gauge` always applies
`self.labels`), the queue-latency histogram, and the recorded wall-clock time
of the last `log_stats` call. -/
structure SchedulerMetricsCollector where
  num_running_reqs : ℚ
  num_used_tokens : ℚ
  token_usage : ℚ
  gen_throughput : ℚ
  num_queue_reqs : ℚ
  cache_hit_rate : ℚ
  spec_accept_length : ℚ
  histogram_request_queue_latency : Histogram
  last_log_time : ℚ
deriving DecidableEq

/-- Source `SchedulerMetricsCollector.log_stats`: seven `_log_gauge` calls (each a
`gauge.labels(**self.labels).set(data)`) followed by
`self.last_log_time = time.time()`; the wall clock is an external input,
passed here as `now`. -/
def log_stats (c : SchedulerMetricsCollector) (stats : SchedulerStats)
    (now : ℚ) : SchedulerMetricsCollector :=
  let c := { c with num_running_reqs := (stats.num_running_reqs : ℚ) }
  let c := { c with num_used_tokens := (stats.num_used_tokens : ℚ) }
  let c := { c with token_usage := stats.token_usage }
  let c := { c with gen_throughput := stats.gen_throughput }
  let c := { c with num_queue_reqs := (stats.num_queue_reqs : ℚ) }
  let c := { c with cache_hit_rate := stats.cache_hit_rate }
  let c := { c with spec_accept_length := stats.spec_accept_length }
  { c with last_log_time := now }

/-- Modelled from the spec: the multiprocess merge for gauges created with
multiprocess_mode mostrecent (the merge itself lives in the external
prometheus_client multiprocess module, not in the shown source; the source
only selects the mode at `Gauge` construction).  Each live process
contributes its last write as a (timestamp, value) pair, and the merged
reading is the pair with the greatest timestamp. -/
def mergeGo (best : ℚ × ℚ) : List (ℚ × ℚ) → ℚ × ℚ
  | [] => best
  | w :: ws => mergeGo (if best.1 < w.1 then w else best) ws

/-- Modelled from the spec: merged value of a mostrecent gauge over the
per-process last writes, read in an arbitrary order; `none` when no process
has written. -/
def mergeMostRecent : List (ℚ × ℚ) → Option (ℚ × ℚ)
  | [] => none
  | w :: ws => some (mergeGo w ws)

/-! Helper lemmas about the bucket scan and the bucket-counter update. -/

theorem incAt_zero : ∀ (l : List ℕ) (i : ℕ), incAt l i 0 = l
  | [], _ => rfl
  | _ :: _, 0 => rfl
  | c :: cs, i + 1 => by simp [incAt, incAt_zero cs i]

theorem incAt_add : ∀ (l : List ℕ) (i a b : ℕ),
    incAt (incAt l i a) i b = incAt l i (a + b)
  | [], _, _, _ => rfl
  | c :: cs, 0, a, b => by simp [incAt, Nat.add_assoc]
  | c :: cs, i + 1, a, b => by simp [incAt, incAt_add cs i a b]

theorem incAt_length : ∀ (l : List ℕ) (i k : ℕ), (incAt l i k).length = l.length
  | [], _, _ => rfl
  | _ :: _, 0, _ => rfl
  | c :: cs, i + 1, k => by simp [incAt, incAt_length cs i k]

theorem incAt_sum : ∀ (l : List ℕ) (i k : ℕ), i < l.length →
    (incAt l i k).sum = l.sum + k
  | [], i, k, hi => absurd hi (by simp)
  | c :: cs, 0, k, _ => by simp [incAt, Nat.add_assoc, Nat.add_comm k]
  | c :: cs, i + 1, k, hi => by
    have : i < cs.length := by simpa using hi
    simp [incAt, incAt_sum cs i k this, Nat.add_assoc]

theorem incAt_getD_ne : ∀ (l : List ℕ) (i k j : ℕ), j ≠ i →
    (incAt l i k).getD j 0 = l.getD j 0
  | [], _, _, _, _ => rfl
  | c :: cs, 0, k, 0, hj => absurd rfl hj
  | c :: cs, 0, k, j + 1, _ => by simp [incAt]
  | c :: cs, i + 1, k, 0, _ => by simp [incAt]
  | c :: cs, i + 1, k, j + 1, hj => by
    have h2 : j ≠ i := fun h => hj (by simp [h])
    show (c :: incAt cs i k).getD (j + 1) 0 = (c :: cs).getD (j + 1) 0
    simpa [List.getD_cons_succ] using incAt_getD_ne cs i k j h2

theorem incAt_getD_self : ∀ (l : List ℕ) (i k : ℕ), i < l.length →
    (incAt l i k).getD i 0 = l.getD i 0 + k
  | [], i, k, hi => absurd hi (by simp)
  | c :: cs, 0, k, _ => by simp [incAt]
  | c :: cs, i + 1, k, hi => by
    have h2 : i < cs.length := by simpa using hi
    show (c :: incAt cs i k).getD (i + 1) 0 = (c :: cs).getD (i + 1) 0 + k
    simpa [List.getD_cons_succ] using incAt_getD_self cs i k h2

theorem findBound_lt_length {v : ℚ} :
    ∀ {l : List ℚ} {i : ℕ}, findBound v l = some i → i < l.length := by
  intro l
  induction l with
  | nil => intro i h; simp [findBound] at h
  | cons b bs ih =>
    intro i h
    by_cases hb : v ≤ b
    · simp [findBound, hb] at h
      subst h
      simp
    · simp only [findBound, if_neg hb, Option.map_eq_some'] at h
      obtain ⟨j, hj, rfl⟩ := h
      simpa using ih hj

theorem findBound_le {v : ℚ} :
    ∀ {l : List ℚ} {i : ℕ}, findBound v l = some i → v ≤ l.getD i 0 := by
  intro l
  induction l with
  | nil => intro i h; simp [findBound] at h
  | cons b bs ih =>
    intro i h
    by_cases hb : v ≤ b
    · simp [findBound, hb] at h
      subst h
      simpa using hb
    · simp only [findBound, if_neg hb, Option.map_eq_some'] at h
      obtain ⟨j, hj, rfl⟩ := h
      simpa using ih hj

theorem findBound_first {v : ℚ} :
    ∀ {l : List ℚ} {i : ℕ}, findBound v l = some i →
      ∀ j, j < i → ¬ v ≤ l.getD j 0 := by
  intro l
  induction l with
  | nil => intro i h; simp [findBound] at h
  | cons b bs ih =>
    intro i h j hj
    by_cases hb : v ≤ b
    · simp [findBound, hb] at h
      omega
    · simp only [findBound, if_neg hb, Option.map_eq_some'] at h
      obtain ⟨i0, hi0, rfl⟩ := h
      cases j with
      | zero => simpa using hb
      | succ j0 => simpa using ih hi0 j0 (by omega)

theorem findBound_eq_none {v : ℚ} :
    ∀ {l : List ℚ}, (∀ b ∈ l, b < v) → findBound v l = none := by
  intro l
  induction l with
  | nil => intro _; rfl
  | cons b bs ih =>
    intro h
    have hb : ¬ v ≤ b := not_le.mpr (h b (by simp))
    have : findBound v bs = none := ih fun x hx => h x (by simp [hx])
    simp [findBound, hb, this]

/-- Unfolding of the batched observation when the token count is nonzero. -/
theorem observe_inter_token_latency_eq {h : Histogram} {internval : ℚ}
    {n : ℕ} (hn : n ≠ 0) :
    h.observe_inter_token_latency internval n =
      .ok (match findBound (internval / (n : ℚ)) h.bounds with
        | some i =>
            { h with sum := h.sum + internval, buckets := incAt h.buckets i n }
        | none =>
            { h with sum := h.sum + internval,
                     bucketInf := h.bucketInf + n }) := by
  unfold Histogram.observe_inter_token_latency
  rw [if_neg hn]

/-- Claim C1: for every call `observe_inter_token_latency(internval,
num_new_tokens)` with `num_new_tokens >= 1` whose adjusted interval
`internval / num_new_tokens` is matched by some finite bound, the raw
`internval` is added to the running sum exactly once, the matched bucket is
the first one (scanning the ascending bound list from the smallest) whose
upper bound is at least the adjusted interval, its counter grows by
`num_new_tokens`, and every other finite bucket counter is unchanged. -/
theorem claim_C1_batched_observe_first_match (h : Histogram) (internval : ℚ)
    (num_new_tokens : ℕ) (hn : 1 ≤ num_new_tokens)
    (hw : h.buckets.length = h.bounds.length) (i : ℕ)
    (hi : findBound (internval / (num_new_tokens : ℚ)) h.bounds = some i) :
    h.observe_inter_token_latency internval num_new_tokens =
      .ok ⟨h.bounds, incAt h.buckets i num_new_tokens, h.bucketInf,
           h.sum + internval⟩ ∧
    internval / (num_new_tokens : ℚ) ≤ h.bounds.getD i 0 ∧
    (∀ j, j < i → ¬ internval / (num_new_tokens : ℚ) ≤ h.bounds.getD j 0) ∧
    (∀ j, j ≠ i →
      (incAt h.buckets i num_new_tokens).getD j 0 = h.buckets.getD j 0) ∧
    (incAt h.buckets i num_new_tokens).getD i 0 =
      h.buckets.getD i 0 + num_new_tokens := by
  have hn0 : num_new_tokens ≠ 0 := by omega
  refine ⟨?_, findBound_le hi, findBound_first hi,
    fun j hj => incAt_getD_ne h.buckets i num_new_tokens j hj,
    incAt_getD_self h.buckets i num_new_tokens (hw ▸ findBound_lt_length hi)⟩
  rw [observe_inter_token_latency_eq hn0, hi]

/-- Witness for C1 at a concrete histogram: bounds `[1, 2]`, interval 3
split over 2 tokens; the adjusted interval 3/2 first matches the bound 2. -/
theorem claim_C1_witness :
    (Histogram.init [1, 2]).observe_inter_token_latency 3 2 =
      .ok ⟨[1, 2], incAt [0, 0] 1 2, 0, 0 + 3⟩ :=
  (claim_C1_batched_observe_first_match (Histogram.init [1, 2]) 3 2
    (by decide) (by decide) 1 (by norm_num [findBound, Histogram.init])).1

/-- Claim C2: when the adjusted interval exceeds every finite bucket bound,
the batched observation increments no finite bucket — the trailing `+inf`
bucket receives the `num_new_tokens`, so the exported total sample count
still grows by `num_new_tokens`.  Concretely, on finite buckets
`{0.1, 0.5, 1.0}`, after `observe_inter_token_latency(0.3, 3)` then
`observe_inter_token_latency(1.5, 1)` the bucket `0.1` holds 3, the sum is
1.8, the total count is 4, and the inferred overflow bucket count is
4 - 3 = 1. -/
theorem claim_C2_overflow_keeps_count (hb : Histogram) :
    (∀ (internval : ℚ) (n : ℕ), 1 ≤ n →
      (∀ b ∈ hb.bounds, b < internval / (n : ℚ)) →
      hb.observe_inter_token_latency internval n =
        .ok ⟨hb.bounds, hb.buckets, hb.bucketInf + n, hb.sum + internval⟩ ∧
      Histogram.count
          ⟨hb.bounds, hb.buckets, hb.bucketInf + n, hb.sum + internval⟩ =
        hb.count + n) ∧
    runOps (Histogram.init [(0.1 : ℚ), 0.5, 1.0])
        [MetricOp.batch 0.3 3, MetricOp.batch 1.5 1] =
      .ok ⟨[0.1, 0.5, 1.0], [3, 0, 0], 1, 1.8⟩ ∧
    (⟨[0.1, 0.5, 1.0], [3, 0, 0], 1, 1.8⟩ : Histogram).buckets.getD 0 0 = 3 ∧
    (⟨[0.1, 0.5, 1.0], [3, 0, 0], 1, 1.8⟩ : Histogram).count = 4 ∧
    (⟨[0.1, 0.5, 1.0], [3, 0, 0], 1, 1.8⟩ : Histogram).count -
      (⟨[0.1, 0.5, 1.0], [3, 0, 0], 1, 1.8⟩ : Histogram).buckets.sum = 1 := by
  have h1 : (Histogram.init [(0.1 : ℚ), 0.5, 1.0]).observe_inter_token_latency
      0.3 3 = .ok ⟨[0.1, 0.5, 1.0], [3, 0, 0], 0, 0.3⟩ := by
    rw [observe_inter_token_latency_eq (by norm_num)]
    norm_num [Histogram.init, findBound, incAt]
  have h2 : (⟨[(0.1 : ℚ), 0.5, 1.0], [3, 0, 0], 0, 0.3⟩ :
      Histogram).observe_inter_token_latency 1.5 1 =
      .ok ⟨[0.1, 0.5, 1.0], [3, 0, 0], 1, 1.8⟩ := by
    rw [observe_inter_token_latency_eq (by norm_num)]
    norm_num [findBound]
  refine ⟨fun internval n hn hall => ?_, ?_, by rfl, by rfl, by rfl⟩
  · have hn0 : n ≠ 0 := by omega
    have hnone : findBound (internval / (n : ℚ)) hb.bounds = none :=
      findBound_eq_none hall
    refine ⟨?_, ?_⟩
    · rw [observe_inter_token_latency_eq hn0, hnone]
    · simp [Histogram.count, Nat.add_assoc]
  · simp [runOps, h1, h2]

/-- Witness for C2 at a concrete overflowing call: bounds `[1]`, interval 3
over a single token exceeds the only finite bound. -/
theorem claim_C2_witness :
    (Histogram.init [1]).observe_inter_token_latency 3 1 =
      .ok ⟨[1], [0], 0 + 1, 0 + 3⟩ :=
  ((claim_C2_overflow_keeps_count (Histogram.init [1])).1 3 1
    (by decide) (by norm_num [Histogram.init])).1

/-- Claim C10: `observe_inter_token_latency` divides by `num_new_tokens`
without a guard: with `num_new_tokens = 0` the call raises
`ZeroDivisionError` before any primitive state is touched (the histogram is
returned exactly as it was), and with any `num_new_tokens >= 1` the call
completes normally. -/
theorem claim_C10_zero_tokens_guard (h : Histogram) (internval : ℚ) :
    h.observe_inter_token_latency internval 0 = .error h ∧
    ∀ n : ℕ, 1 ≤ n →
      ∃ h2, h.observe_inter_token_latency internval n = .ok h2 := by
  refine ⟨rfl, fun n hn => ?_⟩
  have hn0 : n ≠ 0 := by omega
  exact ⟨_, observe_inter_token_latency_eq hn0⟩

/-- Witness for C10: the zero-token call on a concrete histogram fails with
the state unchanged; a two-token call succeeds. -/
theorem claim_C10_witness :
    (Histogram.init [1]).observe_inter_token_latency 2 0 =
      .error (Histogram.init [1]) ∧
    ∃ h2, (Histogram.init [1]).observe_inter_token_latency 2 3 = .ok h2 :=
  ⟨(claim_C10_zero_tokens_guard (Histogram.init [1]) 2).1,
   (claim_C10_zero_tokens_guard (Histogram.init [1]) 2).2 3 (by decide)⟩

/-- The effect of one generic single-sample `observe` on the derived count,
the sum, the bounds and the bucket-list length. -/
theorem observe_spec (h : Histogram) (v : ℚ)
    (hw : h.buckets.length = h.bounds.length) :
    (h.observe v).bounds = h.bounds ∧
    (h.observe v).buckets.length = h.buckets.length ∧
    (h.observe v).buckets.sum + (h.observe v).bucketInf =
      (h.buckets.sum + h.bucketInf) + 1 ∧
    (h.observe v).sum = h.sum + v := by
  unfold Histogram.observe
  cases hfb : findBound v h.bounds with
  | none => simp [Nat.add_assoc]
  | some i =>
    have hi : i < h.buckets.length := hw ▸ findBound_lt_length hfb
    simp [incAt_length, incAt_sum h.buckets i 1 hi]
    omega

/-- The effect of one successful batched observation on the derived count,
the sum, the bounds and the bucket-list length. -/
theorem batch_ok_spec (h h2 : Histogram) (internval : ℚ) (n : ℕ)
    (hw : h.buckets.length = h.bounds.length)
    (hok : h.observe_inter_token_latency internval n = .ok h2) :
    h2.bounds = h.bounds ∧
    h2.buckets.length = h.buckets.length ∧
    h2.buckets.sum + h2.bucketInf = (h.buckets.sum + h.bucketInf) + n ∧
    h2.sum = h.sum + internval := by
  have hn0 : n ≠ 0 := by
    intro hn0
    subst hn0
    simp [Histogram.observe_inter_token_latency] at hok
  rw [observe_inter_token_latency_eq hn0] at hok
  cases hfb : findBound (internval / (n : ℚ)) h.bounds with
  | none =>
    rw [hfb] at hok
    cases hok
    simp [Nat.add_assoc]
  | some i =>
    have hi : i < h.buckets.length := hw ▸ findBound_lt_length hfb
    rw [hfb] at hok
    cases hok
    simp [incAt_length, incAt_sum h.buckets i n hi]
    omega

/-- Running a sequence of observation events to completion adds the number
of represented samples to the derived count and the raw values to the sum. -/
theorem runOps_spec : ∀ (ops : List MetricOp) (h h2 : Histogram),
    h.buckets.length = h.bounds.length →
    runOps h ops = .ok h2 →
    h2.buckets.sum + h2.bucketInf =
      (h.buckets.sum + h.bucketInf) + opsCount ops ∧
    h2.sum = h.sum + opsSum ops := by
  intro ops
  induction ops with
  | nil =>
    intro h h2 _ hrun
    cases hrun
    simp [opsCount, opsSum]
  | cons op ops ih =>
    intro h h2 hw hrun
    cases op with
    | single v =>
      have hs := observe_spec h v hw
      have hw2 : (h.observe v).buckets.length = (h.observe v).bounds.length := by
        rw [hs.1, hs.2.1, hw]
      have := ih (h.observe v) h2 hw2 (by simpa [runOps] using hrun)
      refine ⟨?_, ?_⟩
      · rw [this.1, hs.2.2.1]
        simp [opsCount]
        omega
      · rw [this.2, hs.2.2.2]
        simp [opsSum]
        ring
    | batch iv n =>
      simp only [runOps] at hrun
      cases hok : h.observe_inter_token_latency iv n with
      | error h1 => rw [hok] at hrun; cases hrun
      | ok h1 =>
        rw [hok] at hrun
        have hs := batch_ok_spec h h1 iv n hw hok
        have hw2 : h1.buckets.length = h1.bounds.length := by
          rw [hs.1, hs.2.1, hw]
        have := ih h1 h2 hw2 hrun
        refine ⟨?_, ?_⟩
        · rw [this.1, hs.2.2.1]
          simp [opsCount]
          omega
        · rw [this.2, hs.2.2.2]
          simp [opsSum]
          ring

/-- Claim C3: for every histogram (freshly constructed with any finite bound
ladder) and every completed sequence of single-sample and batched
observations, the implicit overflow bucket count plus all finite bucket
counts equals the total number of observations, and the running sum equals
the arithmetic sum of all observed raw values. -/
theorem claim_C3_histogram_invariant (bounds : List ℚ) (ops : List MetricOp)
    (h2 : Histogram)
    (hrun : runOps (Histogram.init bounds) ops = .ok h2) :
    h2.bucketInf + h2.buckets.sum = opsCount ops ∧
    h2.sum = opsSum ops := by
  have hw : (Histogram.init bounds).buckets.length =
      (Histogram.init bounds).bounds.length := by
    simp [Histogram.init]
  have hz : (Histogram.init bounds).buckets.sum = 0 :=
    List.sum_eq_zero (by simp [Histogram.init])
  have := runOps_spec ops (Histogram.init bounds) h2 hw hrun
  refine ⟨?_, ?_⟩
  · have h1 := this.1
    rw [hz] at h1
    simp [Histogram.init] at h1
    omega
  · have h1 := this.2
    simpa [Histogram.init] using h1

/-- Witness for C3: bounds `[1, 2]` and the event sequence
single 1, batched (4, 2), single 5 give finite buckets `[1, 2]`, overflow 1,
sum 10, and 1 + 3 = 4 total observations. -/
theorem claim_C3_witness :
    (⟨[1, 2], [1, 2], 1, 10⟩ : Histogram).bucketInf +
      (⟨[1, 2], [1, 2], 1, 10⟩ : Histogram).buckets.sum =
      opsCount [MetricOp.single 1, MetricOp.batch 4 2, MetricOp.single 5] ∧
    (⟨[1, 2], [1, 2], 1, 10⟩ : Histogram).sum =
      opsSum [MetricOp.single 1, MetricOp.batch 4 2, MetricOp.single 5] :=
  claim_C3_histogram_invariant [1, 2]
    [MetricOp.single 1, MetricOp.batch 4 2, MetricOp.single 5]
    ⟨[1, 2], [1, 2], 1, 10⟩
    (by
      have h1 : (Histogram.init [(1 : ℚ), 2]).observe 1 =
          ⟨[1, 2], [1, 0], 0, 1⟩ := by
        unfold Histogram.observe
        have hf : findBound (1 : ℚ) [(1 : ℚ), 2] = some 0 := by
          norm_num [findBound]
        norm_num [Histogram.init, hf, incAt]
      have h2 : (⟨[(1 : ℚ), 2], [1, 0], 0, 1⟩ :
          Histogram).observe_inter_token_latency 4 2 =
          .ok ⟨[1, 2], [1, 2], 0, 5⟩ := by
        rw [observe_inter_token_latency_eq (by norm_num)]
        norm_num [findBound, incAt]
      have h3 : (⟨[(1 : ℚ), 2], [1, 2], 0, 5⟩ : Histogram).observe 5 =
          ⟨[1, 2], [1, 2], 1, 10⟩ := by
        unfold Histogram.observe
        have hf : findBound (5 : ℚ) [(1 : ℚ), 2] = none := by
          norm_num [findBound]
        norm_num [hf]
      simp [runOps, h1, h2, h3])

/-- Iterating the generic single-sample `observe` with a fixed value `v`
`n` times adds `n * v` to the sum and `n` to the bucket matched by `v`. -/
theorem observe_iterate (v : ℚ) : ∀ (n : ℕ) (h : Histogram),
    (fun g : Histogram => g.observe v)^[n] h =
      match findBound v h.bounds with
      | some i => { h with sum := h.sum + n * v, buckets := incAt h.buckets i n }
      | none => { h with sum := h.sum + n * v, bucketInf := h.bucketInf + n } := by
  intro n
  induction n with
  | zero =>
    intro h
    cases hfb : findBound v h.bounds <;>
      simp [hfb, incAt_zero]
  | succ n ih =>
    intro h
    rw [Function.iterate_succ_apply]
    cases hfb : findBound v h.bounds with
    | none =>
      have hob : h.observe v =
          { h with sum := h.sum + v, bucketInf := h.bucketInf + 1 } := by
        unfold Histogram.observe
        rw [hfb]
      rw [hob, ih]
      have hsum : h.sum + v + (n : ℚ) * v = h.sum + ((n : ℕ) + 1 : ℕ) * v := by
        push_cast
        ring
      simp [hfb, hsum]
      omega
    | some i =>
      have hob : h.observe v =
          { h with sum := h.sum + v, buckets := incAt h.buckets i 1 } := by
        unfold Histogram.observe
        rw [hfb]
      rw [hob, ih]
      have hsum : h.sum + v + (n : ℚ) * v = h.sum + ((n : ℕ) + 1 : ℕ) * v := by
        push_cast
        ring
      simp [hfb, hsum, incAt_add, Nat.add_comm 1 n]

/-- Claim C4: one batched call with `num_new_tokens >= 1` leaves the
histogram in exactly the state reached by `num_new_tokens` individual
single-sample observations of the adjusted interval
`internval / num_new_tokens` — the same bucket grows by `num_new_tokens`,
and the sum grows by exactly `internval` (in exact rational arithmetic the
individual observations contribute the same sum). -/
theorem claim_C4_batch_refines_singles (h : Histogram) (internval : ℚ)
    (num_new_tokens : ℕ) (hn : 1 ≤ num_new_tokens) :
    h.observe_inter_token_latency internval num_new_tokens =
      .ok ((fun g : Histogram =>
        g.observe (internval / (num_new_tokens : ℚ)))^[num_new_tokens] h) := by
  have hn0 : num_new_tokens ≠ 0 := by omega
  have hq : (num_new_tokens : ℚ) ≠ 0 := Nat.cast_ne_zero.mpr hn0
  rw [observe_inter_token_latency_eq hn0,
    observe_iterate (internval / (num_new_tokens : ℚ)) num_new_tokens h]
  have hsum : h.sum + (num_new_tokens : ℚ) *
      (internval / (num_new_tokens : ℚ)) = h.sum + internval := by
    field_simp
  cases hfb : findBound (internval / (num_new_tokens : ℚ)) h.bounds <;>
    simp [hfb, hsum]

/-- Witness for C4: one batched call (interval 4, 2 tokens) on bounds `[1]`
equals two single observations of 2. -/
theorem claim_C4_witness :
    (Histogram.init [1]).observe_inter_token_latency 4 2 =
      .ok ((fun g : Histogram =>
        g.observe ((4 : ℚ) / ((2 : ℕ) : ℚ)))^[2] (Histogram.init [1])) :=
  claim_C4_batch_refines_singles (Histogram.init [1]) 4 2 (by decide)

/-- Claim C5: with `generation_tokens = 0` (and well-formed non-negative
token amounts), `observe_one_finished_request` increments the three token
counters by the given amounts, the request counter by 1, records the
end-to-end latency, and leaves the time-per-output-token histogram (and
every other histogram) entirely unchanged — the skipped derived observation
is a silent no-op, not an error.  In general the derived observation
`e2e_latency / generation_tokens` is recorded if and only if
`generation_tokens >= 1`. -/
theorem claim_C5_zero_generation_frame (c : TokenizerMetricsCollector)
    (p k : ℤ) (e : ℚ) (hp : 0 ≤ p) (hk : 0 ≤ k) :
    observe_one_finished_request c p 0 k e =
      .ok { c with
        prompt_tokens_total := c.prompt_tokens_total + p.toNat,
        cached_tokens_total := c.cached_tokens_total + k.toNat,
        num_requests_total := c.num_requests_total + 1,
        histogram_e2e_request_latency :=
          c.histogram_e2e_request_latency.observe e } ∧
    ∀ g : ℤ, 0 ≤ g →
      observe_one_finished_request c p g k e =
        .ok { c with
          prompt_tokens_total := c.prompt_tokens_total + p.toNat,
          generation_tokens_total := c.generation_tokens_total + g.toNat,
          cached_tokens_total := c.cached_tokens_total + k.toNat,
          num_requests_total := c.num_requests_total + 1,
          histogram_e2e_request_latency :=
            c.histogram_e2e_request_latency.observe e,
          histogram_time_per_output_token :=
            if 1 ≤ g then
              c.histogram_time_per_output_token.observe (e / (g : ℚ))
            else c.histogram_time_per_output_token } := by
  have hp2 : ¬ p < 0 := not_lt.mpr hp
  have hk2 : ¬ k < 0 := not_lt.mpr hk
  have hgen : ∀ g : ℤ, 0 ≤ g →
      observe_one_finished_request c p g k e =
        .ok { c with
          prompt_tokens_total := c.prompt_tokens_total + p.toNat,
          generation_tokens_total := c.generation_tokens_total + g.toNat,
          cached_tokens_total := c.cached_tokens_total + k.toNat,
          num_requests_total := c.num_requests_total + 1,
          histogram_e2e_request_latency :=
            c.histogram_e2e_request_latency.observe e,
          histogram_time_per_output_token :=
            if 1 ≤ g then
              c.histogram_time_per_output_token.observe (e / (g : ℚ))
            else c.histogram_time_per_output_token } := by
    intro g hg
    have hg2 : ¬ g < 0 := not_lt.mpr hg
    by_cases h1 : 1 ≤ g
    · simp [observe_one_finished_request, counterInc, hp2, hk2, hg2, h1]
    · simp [observe_one_finished_request, counterInc, hp2, hk2, hg2, h1]
  refine ⟨?_, hgen⟩
  have h0 := hgen 0 le_rfl
  simpa using h0

/-- Witness for C5 at a concrete request: 2 prompt tokens, 0 generation
tokens, 1 cached token, end-to-end latency 3/2 seconds. -/
theorem claim_C5_witness :
    observe_one_finished_request TokenizerMetricsCollector.init 2 0 1
        (3 / 2) =
      .ok { TokenizerMetricsCollector.init with
        prompt_tokens_total := 2,
        cached_tokens_total := 1,
        num_requests_total := 1,
        histogram_e2e_request_latency :=
          TokenizerMetricsCollector.init.histogram_e2e_request_latency.observe
            (3 / 2) } :=
  (claim_C5_zero_generation_frame TokenizerMetricsCollector.init 2 1 (3 / 2)
    (by decide) (by decide)).1

/-- Counterexample for C6: a negative token amount does crash the call (the
`ValueError` raised by `Counter.inc` escapes, modelled as `.error`), and a
negative amount in a later position leaves a partial update behind: with
`prompt_tokens = 5` and `generation_tokens = -1` the prompt counter has
already been incremented when the exception escapes. -/
theorem claim_C6_counterexample :
    observe_one_finished_request TokenizerMetricsCollector.init (-1) 0 0 1 =
      .error TokenizerMetricsCollector.init ∧
    observe_one_finished_request TokenizerMetricsCollector.init 5 (-1) 0 1 =
      .error { TokenizerMetricsCollector.init with
        prompt_tokens_total := 5 } ∧
    ({ TokenizerMetricsCollector.init with prompt_tokens_total := 5 } :
        TokenizerMetricsCollector) ≠ TokenizerMetricsCollector.init := by
  refine ⟨rfl, rfl, fun he => ?_⟩
  have h5 := congrArg TokenizerMetricsCollector.prompt_tokens_total he
  simp [TokenizerMetricsCollector.init] at h5

/-- Claim C6 as amended: an observation failure (negative amount passed to a
Counter) is not caught: the exception propagates out of
`observe_one_finished_request`, and counter increments performed before the
failing one persist (no rollback).  With a negative first (prompt) amount
the failure happens before any state change, so the collector is returned
unchanged; with a non-negative prompt amount and a negative generation
amount the prompt counter keeps its increment. -/
theorem claim_C6_amended (c : TokenizerMetricsCollector) (p g k : ℤ)
    (e : ℚ) :
    (p < 0 → observe_one_finished_request c p g k e = .error c) ∧
    (0 ≤ p → g < 0 →
      observe_one_finished_request c p g k e =
        .error { c with
          prompt_tokens_total := c.prompt_tokens_total + p.toNat }) := by
  refine ⟨fun hp => ?_, fun hp hg => ?_⟩
  · simp [observe_one_finished_request, counterInc, hp]
  · have hp2 : ¬ p < 0 := not_lt.mpr hp
    simp [observe_one_finished_request, counterInc, hp2, hg]

/-- Witness for C6 (amended): a concrete crashing call with a negative
prompt amount, and one with a negative generation amount after a prompt
increment of 5. -/
theorem claim_C6_amended_witness :
    observe_one_finished_request TokenizerMetricsCollector.init (-2) 1 0 1 =
      .error TokenizerMetricsCollector.init ∧
    observe_one_finished_request TokenizerMetricsCollector.init 5 (-3) 0 1 =
      .error { TokenizerMetricsCollector.init with
        prompt_tokens_total := 5 } :=
  ⟨(claim_C6_amended TokenizerMetricsCollector.init (-2) 1 0 1).1 (by decide),
   (claim_C6_amended TokenizerMetricsCollector.init 5 (-3) 0 1).2 (by decide)
     (by decide)⟩

/-- Claim C7: `log_stats` copies the seven snapshot fields into the seven
gauges (under the collector's fixed construction-time label tuple, the only
one `_log_gauge` ever addresses), records the wall-clock time of the call,
and leaves the queue-latency histogram untouched. -/
theorem claim_C7_log_stats (c : SchedulerMetricsCollector)
    (stats : SchedulerStats) (now : ℚ) :
    (log_stats c stats now).num_running_reqs = (stats.num_running_reqs : ℚ) ∧
    (log_stats c stats now).num_used_tokens = (stats.num_used_tokens : ℚ) ∧
    (log_stats c stats now).token_usage = stats.token_usage ∧
    (log_stats c stats now).gen_throughput = stats.gen_throughput ∧
    (log_stats c stats now).num_queue_reqs = (stats.num_queue_reqs : ℚ) ∧
    (log_stats c stats now).cache_hit_rate = stats.cache_hit_rate ∧
    (log_stats c stats now).spec_accept_length = stats.spec_accept_length ∧
    (log_stats c stats now).last_log_time = now ∧
    (log_stats c stats now).histogram_request_queue_latency =
      c.histogram_request_queue_latency :=
  ⟨rfl, rfl, rfl, rfl, rfl, rfl, rfl, rfl, rfl⟩

/-- Counterexample for C8: the request-lifecycle collector owns six
histograms, not five as the claim counts them. -/
theorem claim_C8_counterexample :
    TokenizerMetricsCollector.init.histograms.length ≠ 5 := by
  decide

/-- Claim C8 as amended: the request-lifecycle collector owns exactly four
Counters (prompt tokens, generation tokens, cached tokens, completed
requests) and exactly six Histograms (time-to-first-token,
time-per-output-token, inter-token-latency, end-to-end latency,
tokenization latency, detokenization latency), each constructed with a
fixed strictly ascending bucket ladder; the token-timing ladders start below
one second and the end-to-end ladder reaches 1000 seconds. -/
theorem claim_C8_amended :
    TokenizerMetricsCollector.init.counters.length = 4 ∧
    TokenizerMetricsCollector.init.histograms.length = 6 ∧
    List.Chain' (· < ·)
      TokenizerMetricsCollector.init.histogram_time_to_first_token.bounds ∧
    List.Chain' (· < ·)
      TokenizerMetricsCollector.init.histogram_time_per_output_token.bounds ∧
    List.Chain' (· < ·)
      TokenizerMetricsCollector.init.histogram_inter_token_latency_seconds.bounds ∧
    List.Chain' (· < ·)
      TokenizerMetricsCollector.init.histogram_e2e_request_latency.bounds ∧
    List.Chain' (· < ·)
      TokenizerMetricsCollector.init.histogram_tokenization_latency.bounds ∧
    List.Chain' (· < ·)
      TokenizerMetricsCollector.init.histogram_detokenization_latency.bounds ∧
    TokenizerMetricsCollector.init.histogram_time_to_first_token.bounds.getD
      0 0 < 1 ∧
    TokenizerMetricsCollector.init.histogram_time_per_output_token.bounds.getD
      0 0 < 1 ∧
    TokenizerMetricsCollector.init.histogram_inter_token_latency_seconds.bounds.getD
      0 0 < 1 ∧
    TokenizerMetricsCollector.init.histogram_e2e_request_latency.bounds.getLast?
      = some 1000 := by
  refine ⟨rfl, rfl, ?_, ?_, ?_, ?_, ?_, ?_, ?_, ?_, ?_, ?_⟩ <;>
    norm_num [TokenizerMetricsCollector.init, Histogram.init,
      List.chain'_cons, List.getLast?]

/-! Helper lemmas for the mostrecent gauge merge. -/

theorem mergeGo_all_le (best : ℚ × ℚ) :
    ∀ ws : List (ℚ × ℚ), (∀ w ∈ ws, w.1 ≤ best.1) → mergeGo best ws = best := by
  intro ws
  induction ws generalizing best with
  | nil => intro _; rfl
  | cons w ws ih =>
    intro hall
    have hw : ¬ best.1 < w.1 := not_lt.mpr (hall w (by simp))
    simp only [mergeGo, if_neg hw]
    exact ih best fun x hx => hall x (by simp [hx])

theorem mergeGo_append (t v : ℚ) :
    ∀ (pre : List (ℚ × ℚ)) (best : ℚ × ℚ) (post : List (ℚ × ℚ)),
      best.1 < t → (∀ w ∈ pre, w.1 < t) → (∀ w ∈ post, w.1 < t) →
      mergeGo best (pre ++ (t, v) :: post) = (t, v) := by
  intro pre
  induction pre with
  | nil =>
    intro best post hb _ hpost
    simp only [List.nil_append, mergeGo, if_pos hb]
    exact mergeGo_all_le (t, v) post fun w hw => le_of_lt (hpost w hw)
  | cons w pre ih =>
    intro best post hb hpre hpost
    simp only [List.cons_append, mergeGo]
    have hw : w.1 < t := hpre w (by simp)
    have hb2 : (if best.1 < w.1 then w else best).1 < t := by
      by_cases hc : best.1 < w.1 <;> simp [hc, hw, hb]
    exact ih (if best.1 < w.1 then w else best) post hb2
      (fun x hx => hpre x (by simp [hx])) hpost

/-- Claim C9: under the mostrecent multiprocess merge policy (modelled from
the spec, the merge living in the external prometheus_client library), the
merged gauge value is the write with the strictly greatest wall-clock
timestamp, wherever it sits in the order the per-process states are read;
in particular with process A writing 5 at time 0 and process B writing 9 at
time 1, both read orders merge to 9. -/
theorem claim_C9_mostrecent_merge :
    (∀ (pre post : List (ℚ × ℚ)) (t v : ℚ),
      (∀ w ∈ pre, w.1 < t) → (∀ w ∈ post, w.1 < t) →
      mergeMostRecent (pre ++ (t, v) :: post) = some (t, v)) ∧
    mergeMostRecent [(0, 5), (1, 9)] = some (1, 9) ∧
    mergeMostRecent [(1, 9), (0, 5)] = some (1, 9) := by
  have hgen : ∀ (pre post : List (ℚ × ℚ)) (t v : ℚ),
      (∀ w ∈ pre, w.1 < t) → (∀ w ∈ post, w.1 < t) →
      mergeMostRecent (pre ++ (t, v) :: post) = some (t, v) := by
    intro pre post t v hpre hpost
    cases pre with
    | nil =>
      simp only [List.nil_append, mergeMostRecent]
      rw [mergeGo_all_le (t, v) post fun w hw => le_of_lt (hpost w hw)]
    | cons w pre =>
      simp only [List.cons_append, mergeMostRecent]
      rw [mergeGo_append t v pre w post (hpre w (by simp))
        (fun x hx => hpre x (by simp [hx])) hpost]
  refine ⟨hgen, ?_, ?_⟩
  · have := hgen [(0, 5)] [] 1 9 (by norm_num) (by norm_num)
    simpa using this
  · have := hgen [] [(0, 5)] 1 9 (by norm_num) (by norm_num)
    simpa using this

/-- Witness for C9: a last write at time 3 among earlier writes at times 1
and 2 wins regardless of its position in the read order. -/
theorem claim_C9_witness :
    mergeMostRecent [(1, 7), (3, 4), (2, 8)] = some (3, 4) :=
  claim_C9_mostrecent_merge.1 [(1, 7)] [(2, 8)] 3 4 (by norm_num)
    (by norm_num)

end SGLang
